import Mathlib

/-!
Verification development for the rui-llm document loader
(`backend/core/docLoader/doc_convertor.py` and
`backend/core/docLoader/doc_formatter.py`).

Strings are modelled as Lean `String` / `List Char`, file contents as
`List Nat` (byte lists), the filesystem as a partial map
`String → Option (List Nat)`, and the external collaborators (the MD5
digest of `hashlib`, the caption model, the per-format container
parsers) as explicit function parameters, matching the collaborator
contracts the code relies on.
-/

namespace RuiLlm

/-- Does `pat` occur at the very start of `s`? (Python slice comparison
`s[:len(pat)] == pat`, used to model `str.startswith` and substring
search.) -/
def matchesAt : List Char → List Char → Bool
  | [], _ => true
  | _ :: _, [] => false
  | p :: ps, c :: cs => p = c && matchesAt ps cs

/-- Python `pat in s`: does `pat` occur as a contiguous substring of `s`? -/
def containsSub : List Char → List Char → Bool
  | [], pat => matchesAt pat []
  | s@(_ :: t), pat => matchesAt pat s || containsSub t pat

/-- Python `s.startswith(t)`. -/
def strStarts (s t : String) : Bool := matchesAt t.data s.data

/-- Python `t in s` on strings. -/
def strHasSub (s t : String) : Bool := containsSub s.data t.data

/-- Python `s.replace('', rep)`: `rep` is inserted before every character
and at the end. -/
def replEmpty (rep : List Char) : List Char → List Char
  | [] => rep
  | c :: rest => rep ++ c :: replEmpty rep rest

/-- One left-to-right pass of Python `s.replace(pat, rep)` for nonempty
`pat`: every non-overlapping occurrence, scanned from the left, is
replaced.  `fuel` only needs to be at least `s.length`; each step
consumes at least one character of `s`. -/
def replAux (pat rep : List Char) : Nat → List Char → List Char
  | _, [] => []
  | 0, s => s
  | fuel + 1, s@(c :: rest) =>
    if matchesAt pat s then rep ++ replAux pat rep fuel (s.drop pat.length)
    else c :: replAux pat rep fuel rest

/-- Python `s.replace(pat, rep)` (replace every occurrence). -/
def pyReplace (s pat rep : String) : String :=
  if pat.data.isEmpty then ⟨replEmpty rep.data s.data⟩
  else ⟨replAux pat.data rep.data s.data.length s.data⟩

/-- Python `s.split(pat)` for nonempty `pat`: the segments between the
non-overlapping occurrences of `pat`, found by the same left-to-right
scan as `replAux`.  Used to characterize replace-all, since Python
guarantees that replacing `pat` by `rep` equals joining the split
segments with `rep`. -/
def splitAux (pat : List Char) : Nat → List Char → List (List Char)
  | _, [] => [[]]
  | 0, s => [s]
  | fuel + 1, s@(c :: rest) =>
    if matchesAt pat s then [] :: splitAux pat fuel (s.drop pat.length)
    else
      match splitAux pat fuel rest with
      | [] => [[c]]
      | p :: ps => (c :: p) :: ps

/-- Python `sep.join(parts)`. -/
def joinSep (sep : List Char) : List (List Char) → List Char
  | [] => []
  | [p] => p
  | p :: q :: t => p ++ sep ++ joinSep sep (q :: t)

/-- Python `s.split(pat)` on strings (`pat` nonempty). -/
def pySplit (s pat : String) : List String :=
  (splitAux pat.data s.data.length s.data).map (fun l => ⟨l⟩)

/-- Python `sep.join(parts)` on strings. -/
def strIntercalate (sep : String) (parts : List String) : String :=
  ⟨joinSep sep.data (parts.map String.data)⟩

/-! ### The image-reference regular expression

`doc_formatter.py` extracts image references with
`re.finditer` of the pattern (written here with `\\` doubled away):
alt text between `![` and `](`, then a lazily matched path, then an
optional title part (whitespace, a double quote, a lazily matched title,
a closing double quote), then a closing parenthesis.  `.` never matches
a newline; the whitespace class may.  The matcher below implements
exactly Python's backtracking order: the alt group is lazy (shortest
first, full backtracking), then the path group is lazy, then the
optional title group is tried before the bare closing parenthesis, and
inside it the whitespace run is greedy and the title group lazy. -/

/-- Python regex `\s`: space, tab, newline, carriage return, vertical
tab, form feed. -/
def isWS (c : Char) : Bool :=
  c = ' ' || c = '\t' || c = '\n' || c = '\r' || c = '\x0b' || c = '\x0c'

/-- Lazy `.*?`: find the shortest prefix of non-newline characters such
that the continuation `k` succeeds on the remaining suffix; on failure
of `k`, extend the prefix (full backtracking). -/
def lazyDot {α : Type} (k : List Char → Option α) : List Char → Option (List Char × α)
  | [] =>
    match k [] with
    | some a => some ([], a)
    | none => none
  | c :: rest =>
    match k (c :: rest) with
    | some a => some ([], a)
    | none =>
      if c = '\n' then none
      else
        match lazyDot k rest with
        | some (pre, a) => some (c :: pre, a)
        | none => none

/-- Maximal leading whitespace run (greedy `\s+` can only be followed by
a quote character, which is not whitespace, so only the maximal run can
continue the match). -/
def takeWS : List Char → List Char × List Char
  | [] => ([], [])
  | c :: rest =>
    if isWS c then
      let (w, r) := takeWS rest
      (c :: w, r)
    else ([], c :: rest)

/-- Continuation closing the title group: a quote then the final
parenthesis. -/
def titleClose : List Char → Option (List Char)
  | '"' :: ')' :: v => some v
  | _ => none

/-- The optional title group followed by the closing parenthesis:
whitespace (at least one), a quote, a lazy title, a quote, then the
closing parenthesis.  Returns the title and the suffix after the
match. -/
def tryTitled (l : List Char) : Option (List Char × List Char) :=
  match takeWS l with
  | ([], _) => none
  | (_ :: _, r) =>
    match r with
    | '"' :: r2 =>
      match lazyDot titleClose r2 with
      | some (title, v) => some (title, v)
      | none => none
    | _ => none

/-- Continuation after the path group: the optional (greedily attempted)
title group, else the bare closing parenthesis. -/
def kTail (u : List Char) : Option (Option (List Char) × List Char) :=
  match tryTitled u with
  | some (t, rest) => some (some t, rest)
  | none =>
    match u with
    | ')' :: rest => some (none, rest)
    | _ => none

/-- Continuation after the alt group: the literal `](`, then the lazy
path group with its own continuation. -/
def altK (suf : List Char) : Option (List Char × Option (List Char) × List Char) :=
  match suf with
  | ']' :: '(' :: r =>
    match lazyDot kTail r with
    | some (path, a) => some (path, a)
    | none => none
  | _ => none

/-- Try to match the image-reference pattern at the start of `s`.
Returns `(alt, path, optional title, suffix after the match)`. -/
def matchAt (s : List Char) : Option (List Char × List Char × Option (List Char) × List Char) :=
  match s with
  | '!' :: '[' :: t =>
    match lazyDot altK t with
    | some (alt, path, topt, rest) => some (alt, path, topt, rest)
    | none => none
  | _ => none

/-- `re.finditer` scan: try to match at every position, left to right;
after a match, continue after it (non-overlapping).  `fuel` at least
`s.length` suffices, since a match always consumes at least one
character.  Yields `(whole matched snippet, path group, title group or
empty)`, i.e. `(match.group(0), match.group(2), match.group(3) or '')`. -/
def findIterF : Nat → List Char → List (List Char × List Char × List Char)
  | 0, _ => []
  | fuel + 1, s =>
    match matchAt s with
    | some (_, path, topt, rest) =>
      (s.take (s.length - rest.length), path, topt.getD []) :: findIterF fuel rest
    | none =>
      match s with
      | [] => []
      | _ :: t => findIterF fuel t

def findIter (s : List Char) : List (List Char × List Char × List Char) :=
  findIterF s.length s

/-! ### `doc_formatter.py`: `MarkdownFormatter`

The filesystem is a map `fs : String → Option (List Nat)` from path to
file bytes; `os.path.exists` is `(fs p).isSome`.  The MD5 digest of
`hashlib` is an opaque collaborator `md5 : List Nat → String`, and the
`ImageCaptionLoader` collaborator is `capFn : List String → List
(Option String)` (one caption object per input path; the code reads
`doc.page_content if doc else None`, so a caption is an optional
string). -/

/-- `MarkdownFormatter.__extract_images`: all image references of the
Markdown text, in document order, as
(original snippet, image path, original title or empty). -/
def extractImages (markdownText : String) : List (String × String × String) :=
  (findIter markdownText.data).map (fun (s, p, t) => (⟨s⟩, ⟨p⟩, ⟨t⟩))

/-- `MarkdownFormatter.__calculate_md5`: MD5 hex digest of the file's
bytes (the file is only opened on paths that exist; on a missing path
the model reads empty bytes where the code would raise). -/
def calculateMd5 (md5 : List Nat → String) (fs : String → Option (List Nat))
    (filePath : String) : String :=
  md5 ((fs filePath).getD [])

/-- `MarkdownFormatter.__get_captions`: filter the extracted references
down to the paths that exist on disk, in occurrence order, and invoke
the caption collaborator once on that batch. -/
def getCaptions (capFn : List String → List (Option String))
    (fs : String → Option (List Nat))
    (images : List (String × String × String)) : List (Option String) :=
  capFn ((images.filter (fun im => (fs im.2.1).isSome)).map (fun im => im.2.1))

/-- Python truthiness of a caption (`if caption:`): `None` and the empty
string are falsy. -/
def capTruthy : Option String → Bool
  | none => false
  | some c => !c.isEmpty

/-- The replacement reference the rewrite loop of
`process_markdown_images` builds for an existing path: the file's MD5
digest as alt text, the path, and the caption as title when one was
(truthily) produced. -/
def newReference (md5 : List Nat → String) (fs : String → Option (List Nat))
    (imgPath : String) (caption : Option String) : String :=
  let imgMd5 := calculateMd5 md5 fs imgPath
  if capTruthy caption then
    "![" ++ imgMd5 ++ "](" ++ imgPath ++ " \"" ++ caption.getD "" ++ "\")"
  else
    "![" ++ imgMd5 ++ "](" ++ imgPath ++ ")"

/-- The body of the rewrite loop of
`MarkdownFormatter.process_markdown_images`: skip occurrences whose path
does not exist, otherwise build the replacement reference from the MD5
digest (with the caption as title when one was produced) and replace
the original snippet text via Python string replacement. -/
def processLoop (md5 : List Nat → String) (fs : String → Option (List Nat)) :
    String → List ((String × String × String) × Option String) → String
  | md, [] => md
  | md, ((original, imgPath, _), caption) :: rest =>
    if (fs imgPath).isSome then
      processLoop md5 fs (pyReplace md original (newReference md5 fs imgPath caption)) rest
    else
      processLoop md5 fs md rest

/-- `MarkdownFormatter.process_markdown_images`: extract all image
references, get the captions for the existing ones, then iterate over
`zip(images, captions)` (note: `zip` pairs the unfiltered occurrence
list with the filtered caption list and truncates to the shorter). -/
def processMarkdownImages (md5 : List Nat → String)
    (capFn : List String → List (Option String))
    (fs : String → Option (List Nat)) (markdownText : String) : String :=
  let images := extractImages markdownText
  let captions := getCaptions capFn fs images
  processLoop md5 fs markdownText (images.zip captions)

/-! ### `doc_convertor.py`: path helpers

POSIX models of `os.path.join`, `os.path.dirname` and
`pathlib.Path.suffix`, as used by `DocConvertor`. -/

/-- Python `s.endswith(t)` (used only to model path helpers). -/
def strEnds (s t : String) : Bool := matchesAt t.data.reverse s.data.reverse

/-- `os.path.join(a, b)` on POSIX: an absolute `b` discards `a`;
otherwise `a` and `b` are joined with a single slash. -/
def pyJoin (a b : String) : String :=
  if strStarts b "/" then b
  else if a = "" || strEnds a "/" then a ++ b
  else a ++ "/" ++ b

/-- `os.path.dirname` on POSIX: everything up to the last slash, with
trailing slashes stripped unless the head is all slashes. -/
def pyDirname (p : String) : String :=
  let l := p.data
  let i := l.length - (l.reverse.takeWhile (fun c => c ≠ '/')).length
  let head := l.take i
  if head.isEmpty || head.all (fun c => c = '/') then ⟨head⟩
  else ⟨head.dropWhile (fun c => c = '/') |>.reverse |>.dropWhile (fun c => c = '/') |>.reverse⟩

/-- `pathlib.PurePath.name`: the final path component (slash-separated,
ignoring empty and `.` components). -/
def pyName (p : String) : String :=
  match (p.data.splitOn '/').filter (fun c => ¬ c.isEmpty ∧ c ≠ ['.']) with
  | [] => ""
  | c :: rest => ⟨(c :: rest).getLast (by simp)⟩

/-- `pathlib.PurePath.suffix`: the substring of the name from its last
dot, provided that dot is neither the first nor the last character of
the name; otherwise empty. -/
def pySuffix (p : String) : String :=
  let name := (pyName p).data
  let i := name.length - 1 - (name.reverse.takeWhile (fun c => c ≠ '.')).length
  if name.contains '.' ∧ 0 < i ∧ i < name.length - 1 then ⟨name.drop i⟩ else ""

/-- Python `str.lower` (ASCII range, which is all the dispatch table
compares against). -/
def strLower (s : String) : String := ⟨s.data.map Char.toLower⟩

/-! ### `doc_convertor.py`: `DocConvertor`

`imageFolder` is the configured image directory, `md5` the digest
collaborator.  Each converter returns the Markdown string it produces
together with the list of `(path, bytes)` file writes it performs; the
writes model the side effects of `_save_image`. -/

/-- The path `DocConvertor._save_image` stores `imageData` under:
`os.path.join(image_folder, md5-hex + extension)`.  The default
extension at every call site in the repository is `".png"`. -/
def saveImagePath (md5 : List Nat → String) (imageFolder : String)
    (imageData : List Nat) (extension : String) : String :=
  pyJoin imageFolder (md5 imageData ++ extension)

/-- `DocConvertor._save_image`: returns the content-addressed path and
the single file write it performs. -/
def saveImage (md5 : List Nat → String) (imageFolder : String)
    (imageData : List Nat) (extension : String) :
    String × (String × List Nat) :=
  (saveImagePath md5 imageFolder imageData extension,
   (saveImagePath md5 imageFolder imageData extension, imageData))

/-- A `python-docx` paragraph: its style name and its text. -/
structure DocxPara where
  styleName : String
  text : String

/-- A `python-docx` relationship: its target reference string and, when
it is an image part, the target part's bytes. -/
structure DocxRel where
  targetRef : String
  blob : List Nat

/-- A `python-docx` document: paragraphs in order, then the document
part's relationships in iteration order. -/
structure DocxDoc where
  paragraphs : List DocxPara
  rels : List DocxRel

/-- `'#' * n`. -/
def hashMarks (n : Nat) : String := ⟨List.replicate n '#'⟩

/-- `int(para.style.name[-1])` for a heading style whose last character
is a digit (on a non-digit Python would raise; the claims only concern
digit-final heading styles). -/
def styleLevel (styleName : String) : Nat := styleName.back.toNat - 48

/-- `DocConvertor.convert_docx`: headings and paragraphs in order, then
one image reference per relationship whose target reference mentions
"image", each image saved with the default `.png` extension. -/
def convertDocx (md5 : List Nat → String) (imageFolder : String)
    (doc : DocxDoc) : String × List (String × List Nat) :=
  let paraLines := doc.paragraphs.map (fun para =>
    if strStarts para.styleName "Heading" then
      hashMarks (styleLevel para.styleName) ++ " " ++ para.text ++ "\n"
    else para.text ++ "\n")
  let imgRels := doc.rels.filter (fun rel => strHasSub rel.targetRef "image")
  let imgLines := imgRels.map (fun rel =>
    "![image](" ++ (saveImage md5 imageFolder rel.blob ".png").1 ++ ")\n")
  let writes := imgRels.map (fun rel => (saveImage md5 imageFolder rel.blob ".png").2)
  (String.intercalate "\n" (paraLines ++ imgLines), writes)

/-! ### `DocConvertor.convert_xlsx` -/

/-- An `openpyxl` cell value, as the kinds of values the converter's
truthiness test and string rendering distinguish: empty (`None`), text,
integer, boolean.  (Floats are omitted from the model; no claim
concerns their rendering.) -/
inductive XVal where
  | vNone : XVal
  | vStr : String → XVal
  | vInt : Int → XVal
  | vBool : Bool → XVal
deriving DecidableEq

/-- Python truthiness of a cell value. -/
def xTruthy : XVal → Bool
  | .vNone => false
  | .vStr s => !s.isEmpty
  | .vInt n => n != 0
  | .vBool b => b

/-- Python `str` of a (truthy) cell value. -/
def xStr : XVal → String
  | .vNone => "None"
  | .vStr s => s
  | .vInt n => toString n
  | .vBool b => if b then "True" else "False"

/-- The rendering `cell_value or ''` interpolated into the table: the
value's string if truthy, the empty string otherwise. -/
def cellStr (v : XVal) : String := if xTruthy v then xStr v else ""

/-- An `openpyxl` worksheet: title, used range (`max_row`,
`max_column`), and the cell value at 1-based (row, column). -/
structure Sheet where
  title : String
  maxRow : Nat
  maxCol : Nat
  cell : Nat → Nat → XVal

/-- The header line built from row 1: `'|'` then one `" value |"` cell
segment per column `1..max_column`. -/
def headerLine (s : Sheet) : String :=
  String.join ("|" :: (List.range' 1 s.maxCol).map (fun col => " " ++ cellStr (s.cell 1 col) ++ " |"))

/-- The separator line: `'|'` then one `" --- |"` segment per column. -/
def sepLine (s : Sheet) : String :=
  String.join ("|" :: (List.range' 1 s.maxCol).map (fun _ => " --- |"))

/-- A data line for row `row`: `'|'` then one `" value |"` segment per
column. -/
def rowLine (s : Sheet) (row : Nat) : String :=
  String.join ("|" :: (List.range' 1 s.maxCol).map (fun col => " " ++ cellStr (s.cell row col) ++ " |"))

/-- The table lines of one worksheet: header, separator, then one line
per row in `range(2, max_row + 1)`. -/
def sheetTableLines (s : Sheet) : List String :=
  headerLine s :: sepLine s :: (List.range' 2 (s.maxRow - 1)).map (rowLine s)

/-- The Markdown entries one worksheet contributes: the `##` heading
naming the sheet, the table lines, and the trailing blank entry. -/
def sheetBlock (s : Sheet) : List String :=
  ("## " ++ s.title ++ "\n") :: sheetTableLines s ++ ["\n"]

/-- `DocConvertor.convert_xlsx`: one block per worksheet, joined with
newlines.  It saves no images. -/
def convertXlsx (sheets : List Sheet) : String × List (String × List Nat) :=
  (String.intercalate "\n" (sheets.flatMap sheetBlock), [])

/-! ### `DocConvertor.convert_pptx` -/

/-- A `python-pptx` shape: its text when the shape exposes one
(`hasattr(shape, "text")`), its `shape_type` code, and its image bytes
(meaningful when the type is 13, `MSO_SHAPE_TYPE.PICTURE`). -/
structure PShape where
  text : Option String
  shapeType : Int
  blob : List Nat

/-- The Markdown entries and writes one shape contributes. -/
def pptxShapeOut (md5 : List Nat → String) (imageFolder : String)
    (shape : PShape) : List String × List (String × List Nat) :=
  ((match shape.text with
    | some t => [t ++ "\n"]
    | none => []) ++
   (if shape.shapeType = 13 then
      ["![image](" ++ (saveImage md5 imageFolder shape.blob ".png").1 ++ ")\n"]
    else []),
   if shape.shapeType = 13 then [(saveImage md5 imageFolder shape.blob ".png").2] else [])

/-- `DocConvertor.convert_pptx`: per slide, per shape, the shape's text
then (for picture shapes) one image reference; images saved with the
default `.png` extension. -/
def convertPptx (md5 : List Nat → String) (imageFolder : String)
    (slides : List (List PShape)) : String × List (String × List Nat) :=
  let parts := slides.flatMap (fun slide => slide.map (pptxShapeOut md5 imageFolder))
  (String.intercalate "\n" (parts.flatMap Prod.fst), parts.flatMap Prod.snd)

/-! ### `DocConvertor.convert_pdf` -/

/-- A PyMuPDF page: its extracted text and the bytes of each embedded
image, in `get_images()` order (`doc.extract_image(xref)["image"]`,
the image as stored). -/
structure PdfPage where
  text : String
  images : List (List Nat)

/-- The Markdown entries and writes one page contributes: the page text,
then one image reference per embedded image, saved with the default
`.png` extension. -/
def pdfPageOut (md5 : List Nat → String) (imageFolder : String)
    (page : PdfPage) : List String × List (String × List Nat) :=
  ((page.text ++ "\n") ::
     page.images.map (fun b => "![image](" ++ (saveImage md5 imageFolder b ".png").1 ++ ")\n"),
   page.images.map (fun b => (saveImage md5 imageFolder b ".png").2))

/-- `DocConvertor.convert_pdf`. -/
def convertPdf (md5 : List Nat → String) (imageFolder : String)
    (pages : List PdfPage) : String × List (String × List Nat) :=
  (String.intercalate "\n" ((pages.map (pdfPageOut md5 imageFolder)).flatMap Prod.fst),
   (pages.map (pdfPageOut md5 imageFolder)).flatMap Prod.snd)

/-! ### `DocConvertor.convert_html` -/

/-- A BeautifulSoup node of the kinds `convert_html` queries: a heading
of some level, a paragraph, or an image tag with its optional `src`
attribute (`img.get('src')`). -/
inductive HtmlNode where
  | h : Nat → String → HtmlNode
  | p : String → HtmlNode
  | img : Option String → HtmlNode
deriving DecidableEq

/-- `soup.find_all('h<i>')` rendered: the heading lines for one level,
in document order. -/
def htmlHeadingLinesAt (doc : List HtmlNode) (i : Nat) : List String :=
  doc.filterMap (fun n =>
    match n with
    | .h j t => if j = i then some (hashMarks i ++ " " ++ t ++ "\n") else none
    | _ => none)

/-- The heading loop `for i in range(1, 7)`: all `h1` lines, then all
`h2` lines, and so on through `h6`. -/
def htmlHeadingLines (doc : List HtmlNode) : List String :=
  (List.range' 1 6).flatMap (htmlHeadingLinesAt doc)

/-- `soup.find_all('p')` rendered: the paragraph lines in document
order. -/
def htmlParaLines (doc : List HtmlNode) : List String :=
  doc.filterMap (fun n =>
    match n with
    | .p t => some (t ++ "\n")
    | _ => none)

/-- The body of the image loop of `convert_html` for one node: a remote
(`http`/`https`) source is referenced by URL unchanged with no write; a
truthy local source is resolved against the source file's directory and,
when that file exists, re-saved content-addressed (with the default
`.png` extension) and referenced; otherwise nothing is emitted. -/
def htmlImgStep (md5 : List Nat → String) (imageFolder : String)
    (fs : String → Option (List Nat)) (filePath : String)
    (n : HtmlNode) : List String × List (String × List Nat) :=
  match n with
  | .img (some src) =>
    if !src.isEmpty && (strStarts src "http" || strStarts src "https") then
      (["![image](" ++ src ++ ")\n"], [])
    else if !src.isEmpty then
      let imgPath := pyJoin (pyDirname filePath) src
      match fs imgPath with
      | some imageData =>
        (["![image](" ++ (saveImage md5 imageFolder imageData ".png").1 ++ ")\n"],
         [(saveImage md5 imageFolder imageData ".png").2])
      | none => ([], [])
    else ([], [])
  | _ => ([], [])

/-- The image loop of `convert_html` over the whole document. -/
def htmlImgLines (md5 : List Nat → String) (imageFolder : String)
    (fs : String → Option (List Nat)) (filePath : String)
    (doc : List HtmlNode) : List String :=
  doc.flatMap (fun n => (htmlImgStep md5 imageFolder fs filePath n).1)

/-- The writes of the image loop of `convert_html`. -/
def htmlImgWrites (md5 : List Nat → String) (imageFolder : String)
    (fs : String → Option (List Nat)) (filePath : String)
    (doc : List HtmlNode) : List (String × List Nat) :=
  doc.flatMap (fun n => (htmlImgStep md5 imageFolder fs filePath n).2)

/-- `DocConvertor.convert_html` on the parsed document: the heading
loop, then the paragraph loop, then the image loop, joined with
newlines. -/
def convertHtmlDoc (md5 : List Nat → String) (imageFolder : String)
    (fs : String → Option (List Nat)) (filePath : String)
    (doc : List HtmlNode) : String × List (String × List Nat) :=
  (String.intercalate "\n"
     (htmlHeadingLines doc ++ htmlParaLines doc ++ htmlImgLines md5 imageFolder fs filePath doc),
   htmlImgWrites md5 imageFolder fs filePath doc)

/-! ### `DocConvertor.convert` -/

/-- The parsing collaborators: for each format, the parsed document a
path's file yields. -/
structure ParseEnv where
  docx : String → DocxDoc
  xlsx : String → List Sheet
  pptx : String → List (List PShape)
  pdf : String → List PdfPage
  html : String → List HtmlNode

/-- `DocConvertor.convert`: dispatch on the lower-cased file suffix
against the fixed converter table; an unrecognized suffix raises
`ValueError` with a message naming the extension (modelled as
`Except.error`). -/
def convert (md5 : List Nat → String) (imageFolder : String)
    (fs : String → Option (List Nat)) (env : ParseEnv)
    (filePath : String) : Except String (String × List (String × List Nat)) :=
  let ext := strLower (pySuffix filePath)
  if ext = ".docx" then .ok (convertDocx md5 imageFolder (env.docx filePath))
  else if ext = ".xlsx" then .ok (convertXlsx (env.xlsx filePath))
  else if ext = ".pptx" then .ok (convertPptx md5 imageFolder (env.pptx filePath))
  else if ext = ".pdf" then .ok (convertPdf md5 imageFolder (env.pdf filePath))
  else if ext = ".html" then .ok (convertHtmlDoc md5 imageFolder fs filePath (env.html filePath))
  else if ext = ".htm" then .ok (convertHtmlDoc md5 imageFolder fs filePath (env.html filePath))
  else .error ("Unsupported file type: " ++ ext)

/-! ### Concrete instances used by the theorems below -/

/-- Filesystem in which `b.png` and `c.png` exist but `a.png` does not. -/
def fsABC : String → Option (List Nat) := fun p =>
  if p = "b.png" then some [1] else if p = "c.png" then some [2] else none

/-- A digest collaborator distinguishing the two files of `fsABC`. -/
def md5BC : List Nat → String := fun b => if b = [1] then "Hb" else "Hc"

/-- A caption collaborator that names its input path in each caption,
one caption per path in order (the collaborator contract). -/
def capNamed : List String → List (Option String) := fun ps =>
  ps.map (fun p => some ("cap-" ++ p))

/-- A caption collaborator returning the same caption for every path. -/
def capConst (c : String) : List String → List (Option String) := fun ps =>
  ps.map (fun _ => some c)

/-- Filesystem in which only `p.png` exists, with bytes `[7]`. -/
def fsP : String → Option (List Nat) := fun p => if p = "p.png" then some [7] else none

/-- Digest collaborator for `fsP`. -/
def md5P : List Nat → String := fun b => if b = [7] then "H7" else "HX"

/-- Filesystem in which only `q.png` exists, with bytes `[9]`. -/
def fsQ : String → Option (List Nat) := fun p => if p = "q.png" then some [9] else none

/-- Digest collaborator for `fsQ`. -/
def md5Q : List Nat → String := fun b => if b = [9] then "H9" else "HX"

/-- Filesystem in which only `e.png` exists, with bytes `[3]`. -/
def fsE : String → Option (List Nat) := fun p => if p = "e.png" then some [3] else none

/-- Digest collaborator for `fsE`. -/
def md5E : List Nat → String := fun b => if b = [3] then "He" else "HX"

/-- Filesystem in which only `foo.png` exists, with bytes `[5]`. -/
def fsFoo : String → Option (List Nat) := fun p => if p = "foo.png" then some [5] else none

/-- Digest collaborator for `fsFoo`. -/
def md5Foo : List Nat → String := fun b => if b = [5] then "Hf" else "HX"

/-- An HTML document whose paragraph precedes its heading in source
order, with an image tag whose local file does not exist. -/
def docPH : List HtmlNode := [.p "one", .h 1 "two", .img (some "gone.png")]

/-- A 2-by-2 worksheet with uniform text cells. -/
def sheetW : Sheet := ⟨"S", 2, 2, fun _ _ => .vStr "a"⟩

/-- A 2-by-1 worksheet whose data cell holds the number 0. -/
def sheetZero : Sheet :=
  ⟨"Z", 2, 1, fun r c => if r = 2 ∧ c = 1 then .vInt 0 else .vStr "x"⟩

/-- A parse environment returning empty documents for every path. -/
def envTriv : ParseEnv :=
  ⟨fun _ => ⟨[], []⟩, fun _ => [], fun _ => [], fun _ => [], fun _ => []⟩

/-- Filesystem in which only `dir/local.png` exists, with bytes `[4]`. -/
def fsDir : String → Option (List Nat) := fun p =>
  if p = "dir/local.png" then some [4] else none

/-- A Word document with no paragraphs and one image relationship. -/
def docxOneImage : DocxDoc := ⟨[], [⟨"media/image1.png", [9]⟩]⟩

/-! ### Helper lemmas -/

theorem matchesAt_append_self (p r : List Char) : matchesAt p (p ++ r) = true := by
  induction p with
  | nil => rfl
  | cons c cs ih => simp [matchesAt, ih]

theorem matchesAt_self (l : List Char) : matchesAt l l = true := by
  have h := matchesAt_append_self l []
  simpa using h

theorem containsSub_append_self (a b : List Char) : containsSub (a ++ b) b = true := by
  induction a with
  | nil =>
    cases b with
    | nil => rfl
    | cons c cs => simp [containsSub, matchesAt_self]
  | cons c cs ih => simp [containsSub, ih]

theorem strHasSub_append_self (a b : String) : strHasSub (a ++ b) b = true := by
  have hd : (a ++ b).data = a.data ++ b.data := by
    cases a; cases b; rfl
  simp [strHasSub, hd, containsSub_append_self]

theorem string_data_app (a b : String) : (a ++ b).data = a.data ++ b.data := by
  cases a; cases b; rfl

theorem strApp_left_cancel {a b c : String} (h : a ++ b = a ++ c) : b = c := by
  have hd := congrArg String.data h
  rw [string_data_app, string_data_app] at hd
  exact String.ext (List.append_cancel_left hd)

theorem strApp_right_cancel {a b c : String} (h : a ++ c = b ++ c) : a = b := by
  have hd := congrArg String.data h
  rw [string_data_app, string_data_app] at hd
  exact String.ext (List.append_cancel_right hd)

theorem matchesAt_iff (p : List Char) : ∀ s, matchesAt p s = true ↔ ∃ v, s = p ++ v := by
  induction p with
  | nil => intro s; simp [matchesAt]
  | cons c cs ih =>
    intro s
    cases s with
    | nil => simp [matchesAt]
    | cons d t =>
      simp only [matchesAt, Bool.and_eq_true, decide_eq_true_eq, ih, List.cons_append]
      constructor
      · rintro ⟨rfl, v, rfl⟩
        exact ⟨v, rfl⟩
      · rintro ⟨v, hv⟩
        obtain ⟨h1, h2⟩ := List.cons.inj hv
        exact ⟨h1.symm, v, h2⟩

theorem containsSub_iff (s p : List Char) :
    containsSub s p = true ↔ ∃ u v, s = u ++ p ++ v := by
  induction s with
  | nil =>
    simp only [containsSub, matchesAt_iff]
    constructor
    · rintro ⟨v, hv⟩
      exact ⟨[], v, by simpa using hv⟩
    · rintro ⟨u, v, hv⟩
      obtain ⟨hu, hp, hv2⟩ := by simpa [List.append_eq_nil] using hv.symm
      exact ⟨[], by simp [hp, hv2]⟩
  | cons c t ih =>
    simp only [containsSub, Bool.or_eq_true, matchesAt_iff, ih]
    constructor
    · rintro (⟨v, hv⟩ | ⟨u, v, hv⟩)
      · exact ⟨[], v, by simpa using hv⟩
      · exact ⟨c :: u, v, by simp [hv]⟩
    · rintro ⟨u, v, hv⟩
      cases u with
      | nil => exact Or.inl ⟨v, by simpa using hv⟩
      | cons x u2 =>
        obtain ⟨h1, h2⟩ := List.cons.inj (by simpa using hv)
        exact Or.inr ⟨u2, v, by rw [h2, List.append_assoc]⟩

theorem splitAux_ne_nil (pat : List Char) (fuel : Nat) (s : List Char) :
    splitAux pat fuel s ≠ [] := by
  cases fuel with
  | zero => cases s <;> simp [splitAux]
  | succ f =>
    cases s with
    | nil => simp [splitAux]
    | cons c rest =>
      simp only [splitAux]
      by_cases hm : matchesAt pat (c :: rest) = true
      · simp [hm]
      · simp only [hm, Bool.false_eq_true, if_false]
        cases hsp : splitAux pat f rest <;> simp

theorem splitAux_head_pre (pat : List Char) :
    ∀ fuel s p ps, splitAux pat fuel s = p :: ps → ∃ q, s = p ++ q := by
  intro fuel
  induction fuel with
  | zero =>
    intro s p ps h
    cases s with
    | nil =>
      simp only [splitAux] at h
      obtain ⟨rfl, rfl⟩ := List.cons.inj h
      exact ⟨[], rfl⟩
    | cons c rest =>
      simp only [splitAux] at h
      obtain ⟨rfl, rfl⟩ := List.cons.inj h
      exact ⟨[], by simp⟩
  | succ f ih =>
    intro s p ps h
    cases s with
    | nil =>
      simp only [splitAux] at h
      obtain ⟨rfl, rfl⟩ := List.cons.inj h
      exact ⟨[], rfl⟩
    | cons c rest =>
      simp only [splitAux] at h
      by_cases hm : matchesAt pat (c :: rest) = true
      · rw [if_pos hm] at h
        obtain ⟨rfl, _⟩ := List.cons.inj h
        exact ⟨c :: rest, rfl⟩
      · simp only [hm, Bool.false_eq_true, if_false] at h
        cases hsp : splitAux pat f rest with
        | nil => exact absurd hsp (splitAux_ne_nil pat f rest)
        | cons p2 ps2 =>
          rw [hsp] at h
          obtain ⟨hp, _⟩ := List.cons.inj h
          obtain ⟨q, hq⟩ := ih rest p2 ps2 hsp
          refine ⟨q, ?_⟩
          rw [← hp, hq]
          rfl

theorem replAux_eq_joinSep (pat rep : List Char) :
    ∀ fuel s, replAux pat rep fuel s = joinSep rep (splitAux pat fuel s) := by
  intro fuel
  induction fuel with
  | zero => intro s; cases s <;> simp [replAux, splitAux, joinSep]
  | succ f ih =>
    intro s
    cases s with
    | nil => simp [replAux, splitAux, joinSep]
    | cons c rest =>
      simp only [replAux, splitAux]
      by_cases hm : matchesAt pat (c :: rest) = true
      · rw [if_pos hm, if_pos hm]
        cases hsp : splitAux pat f ((c :: rest).drop pat.length) with
        | nil => exact absurd hsp (splitAux_ne_nil pat f _)
        | cons p2 ps2 =>
          rw [ih, hsp]
          simp [joinSep]
      · simp only [hm, Bool.false_eq_true, if_false]
        cases hsp : splitAux pat f rest with
        | nil => exact absurd hsp (splitAux_ne_nil pat f rest)
        | cons p2 ps2 =>
          rw [ih, hsp]
          cases ps2 with
          | nil => simp [joinSep]
          | cons p3 t3 => simp [joinSep]

theorem splitAux_parts_free (pat : List Char) (hne : pat ≠ []) :
    ∀ fuel s, s.length ≤ fuel → ∀ p ∈ splitAux pat fuel s, containsSub p pat = false := by
  have hnil : containsSub [] pat = false := by
    cases pat with
    | nil => exact absurd rfl hne
    | cons x xs => simp [containsSub, matchesAt]
  intro fuel
  induction fuel with
  | zero =>
    intro s hlen p hp
    cases s with
    | nil =>
      simp only [splitAux, List.mem_singleton] at hp
      subst hp
      exact hnil
    | cons c rest => simp at hlen
  | succ f ih =>
    intro s hlen p hp
    cases s with
    | nil =>
      simp only [splitAux, List.mem_singleton] at hp
      subst hp
      exact hnil
    | cons c rest =>
      have hlen2 : rest.length ≤ f := by
        simpa using hlen
      simp only [splitAux] at hp
      by_cases hm : matchesAt pat (c :: rest) = true
      · rw [if_pos hm] at hp
        rcases List.mem_cons.mp hp with rfl | hp2
        · exact hnil
        · refine ih _ ?_ p hp2
          have hp1 : 1 ≤ pat.length := by
            cases pat with
            | nil => exact absurd rfl hne
            | cons x xs => simp
          simp only [List.length_drop, List.length_cons]
          omega
      · simp only [hm, Bool.false_eq_true, if_false] at hp
        cases hsp : splitAux pat f rest with
        | nil => exact absurd hsp (splitAux_ne_nil pat f rest)
        | cons p2 ps2 =>
          rw [hsp] at hp
          have hfree : containsSub p2 pat = false :=
            ih rest hlen2 p2 (by rw [hsp]; exact List.mem_cons_self _ _)
          rcases List.mem_cons.mp hp with rfl | hp2
          · obtain ⟨q, hq⟩ := splitAux_head_pre pat f rest p2 ps2 hsp
            simp only [containsSub, hfree, Bool.or_false]
            by_contra hcon
            rw [Bool.not_eq_false] at hcon
            obtain ⟨v, hv⟩ := (matchesAt_iff pat _).mp hcon
            have : matchesAt pat (c :: rest) = true := by
              rw [matchesAt_iff]
              refine ⟨v ++ q, ?_⟩
              rw [hq]
              have : c :: (p2 ++ q) = (c :: p2) ++ q := rfl
              rw [this, hv, List.append_assoc]
            exact hm this
          · exact ih rest hlen2 p (by rw [hsp]; exact List.mem_cons_of_mem _ hp2)

theorem joinSep_contains_part (rep : List Char) :
    ∀ parts p, p ∈ parts → containsSub (joinSep rep parts) p = true := by
  intro parts
  induction parts with
  | nil => intro p hp; simp at hp
  | cons a t ih =>
    intro p hp
    rcases List.mem_cons.mp hp with rfl | hp2
    · cases t with
      | nil => exact (containsSub_iff _ _).mpr ⟨[], [], by simp [joinSep]⟩
      | cons b t2 =>
        exact (containsSub_iff _ _).mpr ⟨[], rep ++ joinSep rep (b :: t2), by simp [joinSep]⟩
    · cases t with
      | nil => simp at hp2
      | cons b t2 =>
        obtain ⟨u, v, huv⟩ := (containsSub_iff _ _).mp (ih p hp2)
        refine (containsSub_iff _ _).mpr ⟨a ++ rep ++ u, v, ?_⟩
        simp [joinSep, huv]

theorem data_map_mk (ps : List (List Char)) :
    ((ps.map (fun l => (⟨l⟩ : String))).map String.data) = ps := by
  induction ps with
  | nil => rfl
  | cons x xs ih => simp [ih]

theorem string_data_ne_nil {pat : String} (h : pat ≠ "") : pat.data ≠ [] := by
  intro hc
  exact h (String.ext (by simpa using hc))

theorem pyReplace_eq_join (s pat rep : String) (h : pat ≠ "") :
    pyReplace s pat rep = strIntercalate rep (pySplit s pat) := by
  have hd : pat.data ≠ [] := string_data_ne_nil h
  unfold pyReplace pySplit strIntercalate
  rw [if_neg (by simpa [List.isEmpty_iff] using hd)]
  rw [data_map_mk, replAux_eq_joinSep]

theorem pySplit_parts_free (s pat : String) (h : pat ≠ "") :
    ∀ part ∈ pySplit s pat, strHasSub part pat = false := by
  intro part hp
  unfold pySplit at hp
  rw [List.mem_map] at hp
  obtain ⟨l, hl, rfl⟩ := hp
  exact splitAux_parts_free pat.data (string_data_ne_nil h) _ s.data le_rfl l hl

theorem pyReplace_keeps_part (s pat rep part x : String) (h : pat ≠ "")
    (hp : part ∈ pySplit s pat) (hx : strHasSub part x = true) :
    strHasSub (pyReplace s pat rep) x = true := by
  rw [pyReplace_eq_join s pat rep h]
  unfold pySplit at hp
  rw [List.mem_map] at hp
  obtain ⟨l, hl, rfl⟩ := hp
  unfold strHasSub strIntercalate pySplit
  rw [data_map_mk]
  have hpart := joinSep_contains_part rep.data _ l hl
  obtain ⟨u, v, huv⟩ := (containsSub_iff _ _).mp hpart
  obtain ⟨u2, v2, huv2⟩ := (containsSub_iff _ _).mp hx
  have huv2d : l = u2 ++ x.data ++ v2 := huv2
  rw [huv2d] at huv
  refine (containsSub_iff _ _).mpr ⟨u ++ u2, v2 ++ v, ?_⟩
  rw [huv]
  simp [List.append_assoc]

/-! ### The claims -/

/-- C1: `process_markdown_images` does invoke the captioning
collaborator once with the existing paths in occurrence order (second
conjunct), but it does NOT rewrite each existing occurrence with the
caption produced for that occurrence's path: the code zips the
unfiltered occurrence list with the filtered caption list, so when the
first occurrence's path `a.png` does not exist, the existing `b.png`
occurrence receives the caption produced for `c.png`
(`cap-c.png`), and the trailing existing occurrence `c.png` is dropped
by `zip` and never rewritten at all.  This contradicts the spec's
stated positional alignment; the code's `zip(images, captions)` is the
slip. -/
theorem c1_caption_misalignment :
    getCaptions capNamed fsABC (extractImages "![x](a.png) ![y](b.png) ![z](c.png)") =
      [some "cap-b.png", some "cap-c.png"] ∧
    processMarkdownImages md5BC capNamed fsABC "![x](a.png) ![y](b.png) ![z](c.png)" =
      "![x](a.png) ![Hb](b.png \"cap-c.png\") ![z](c.png)" := by
  constructor
  · decide
  · decide

/-- C2 counterexample: the per-occurrence substitution is Python
`str.replace`, which replaces EVERY occurrence of the snippet text, not
only the first remaining one.  Here the snippet of the only processed
occurrence, the text of an existing `p.png` reference, also occurs
inside the title of a second (unprocessed, nonexistent-path) reference;
processing the one occurrence rewrites both copies, so the result
contains no copy of the original snippet, where the claim requires the
second copy to survive. -/
theorem c2_counterexample :
    processMarkdownImages md5P (capConst "cat") fsP
        "![a](p.png) ![z](m.png \"inner ![a](p.png) end\")" =
      "![H7](p.png \"cat\") ![z](m.png \"inner ![H7](p.png \"cat\") end\")" ∧
    strHasSub
      (processMarkdownImages md5P (capConst "cat") fsP
        "![a](p.png) ![z](m.png \"inner ![a](p.png) end\")")
      "![a](p.png)" = false := by
  constructor
  · decide
  · decide

/-- C2 amended: for each image occurrence whose referenced file
exists, `process_markdown_images` computes the file's MD5 hex digest,
builds the replacement reference (with or without a title depending on
whether a caption was produced), and substitutes it for EVERY
occurrence of the original snippet text in the working Markdown string
(Python `str.replace` semantics) — so when the identical snippet
appears k times, processing one occurrence changes all k copies at
once.  Proved universally: the rewrite pass is the loop over the zipped
pairs (first conjunct); an existing-path iteration performs exactly
`pyReplace` with the built reference (second conjunct), whose titled
and title-free shapes are the third and fourth conjuncts; and the
replace-all semantics is characterized in full: the working string
becomes the segments of its split on the snippet joined by the
replacement (fifth conjunct) with every segment free of the snippet
(sixth conjunct), so no occurrence of the snippet survives unreplaced.
The final conjunct exhibits this at k = 3: two occurrences and a copy
embedded in another reference's title all change at once. -/
theorem c2_amended_replace_all (md5 : List Nat → String)
    (capFn : List String → List (Option String))
    (fs : String → Option (List Nat))
    (md original imgPath titleText : String) (caption : Option String)
    (rest : List ((String × String × String) × Option String))
    (hne : original ≠ "") (hex : (fs imgPath).isSome = true) :
    processMarkdownImages md5 capFn fs md =
      processLoop md5 fs md
        ((extractImages md).zip (getCaptions capFn fs (extractImages md))) ∧
    processLoop md5 fs md (((original, imgPath, titleText), caption) :: rest) =
      processLoop md5 fs
        (pyReplace md original (newReference md5 fs imgPath caption)) rest ∧
    (capTruthy caption = true →
      newReference md5 fs imgPath caption =
        "![" ++ calculateMd5 md5 fs imgPath ++ "](" ++ imgPath ++ " \"" ++
          caption.getD "" ++ "\")") ∧
    (capTruthy caption = false →
      newReference md5 fs imgPath caption =
        "![" ++ calculateMd5 md5 fs imgPath ++ "](" ++ imgPath ++ ")") ∧
    pyReplace md original (newReference md5 fs imgPath caption) =
      strIntercalate (newReference md5 fs imgPath caption) (pySplit md original) ∧
    (∀ part ∈ pySplit md original, strHasSub part original = false) ∧
    processMarkdownImages md5Q (capConst "cq") fsQ
        "![u](q.png) ![u](q.png) ![v](w.png \"t ![u](q.png) t\")" =
      "![H9](q.png \"cq\") ![H9](q.png \"cq\") ![v](w.png \"t ![H9](q.png \"cq\") t\")" := by
  refine ⟨rfl, ?_, fun hc => by simp [newReference, hc],
    fun hc => by simp [newReference, hc],
    pyReplace_eq_join md original _ hne,
    pySplit_parts_free md original hne,
    by decide⟩
  simp [processLoop, hex]

/-- Witness for C2: an existing-path iteration on a concrete working
string performs the replace-all substitution with the built
reference. -/
theorem c2_witness :
    processLoop md5Q fsQ "![u](q.png) ![u](q.png)"
        [(("![u](q.png)", "q.png", ""), some "cq")] =
      processLoop md5Q fsQ
        (pyReplace "![u](q.png) ![u](q.png)" "![u](q.png)"
          (newReference md5Q fsQ "q.png" (some "cq"))) [] :=
  (c2_amended_replace_all md5Q (capConst "cq") fsQ "![u](q.png) ![u](q.png)"
    "![u](q.png)" "q.png" "" (some "cq") [] (by decide) (by decide)).2.1

/-- C7 counterexample: an image occurrence whose referenced path does
not exist is NOT always left completely unmodified: when another
occurrence's snippet text occurs inside it (here, inside its title),
the literal replace-all substitution performed for the existing
occurrence also rewrites that embedded copy.  The nonexistent-path
reference to `n.png` is modified, where the claim requires it to appear
unmodified. -/
theorem c7_counterexample :
    processMarkdownImages md5E (capConst "cat") fsE
        "![b](e.png) ![q](n.png \"x ![b](e.png) y\")" =
      "![He](e.png \"cat\") ![q](n.png \"x ![He](e.png \"cat\") y\")" ∧
    strHasSub
      (processMarkdownImages md5E (capConst "cat") fsE
        "![b](e.png) ![q](n.png \"x ![b](e.png) y\")")
      "![q](n.png \"x ![b](e.png) y\")" = false := by
  constructor
  · decide
  · decide

/-- C7 amended: for a Markdown input containing `![a](foo.png)` where
`foo.png` exists (bytes `[5]`, digest `Hf`) and the collaborator
returns caption "a cat", the output contains the rewritten reference
with the file's MD5 digest as alt text and the caption as title (third
and fourth conjuncts); and an image occurrence whose referenced path
does not exist is never itself processed: universally, its iteration of
the rewrite loop performs no substitution and passes the working
Markdown through unchanged (first conjunct).  Such an occurrence is NOT
in general left unmodified in the final output (see the counterexample:
the replace-all substitution for an existing occurrence rewrites a copy
of that occurrence's snippet embedded inside it); what each
substitution step does preserve, universally, is every substring lying
inside a single segment of its replace-all split, so a nonexistent-path
reference survives a step as a substring whenever it lies within one
segment of that step's split (second conjunct); in the concrete
scenario the `bar.png` reference indeed survives byte-identical (fifth
conjunct). -/
theorem c7_amended (md5 : List Nat → String) (fs : String → Option (List Nat)) :
    (∀ (md original imgPath titleText : String) (caption : Option String)
        (rest : List ((String × String × String) × Option String)),
      (fs imgPath).isSome = false →
      processLoop md5 fs md (((original, imgPath, titleText), caption) :: rest) =
        processLoop md5 fs md rest) ∧
    (∀ (w pat rep x : String), pat ≠ "" →
      (∃ part ∈ pySplit w pat, strHasSub part x = true) →
      strHasSub (pyReplace w pat rep) x = true) ∧
    processMarkdownImages md5Foo (capConst "a cat") fsFoo
        "![a](foo.png) ![w](bar.png)" =
      "![Hf](foo.png \"a cat\") ![w](bar.png)" ∧
    strHasSub
      (processMarkdownImages md5Foo (capConst "a cat") fsFoo
        "![a](foo.png) ![w](bar.png)")
      "![Hf](foo.png \"a cat\")" = true ∧
    strHasSub
      (processMarkdownImages md5Foo (capConst "a cat") fsFoo
        "![a](foo.png) ![w](bar.png)")
      "![w](bar.png)" = true := by
  refine ⟨fun md original imgPath titleText caption rest hmiss => ?_, ?_,
    by decide, by decide, by decide⟩
  · simp [processLoop, hmiss]
  · rintro w pat rep x hpat ⟨part, hp, hx⟩
    exact pyReplace_keeps_part w pat rep part x hpat hp hx

/-- Witness for C7: a nonexistent-path occurrence's loop iteration
leaves the working Markdown unchanged. -/
theorem c7_witness :
    processLoop md5Foo fsFoo "![w](bar.png)"
        [(("![w](bar.png)", "bar.png", ""), none)] =
      processLoop md5Foo fsFoo "![w](bar.png)" [] :=
  (c7_amended md5Foo fsFoo).1 "![w](bar.png)" "![w](bar.png)" "bar.png" "" none []
    (by decide)

/-- C3 counterexample: `convert_html` does not emit text blocks in
source order across tags.  On a document whose paragraph "one" precedes
its `h1` heading "two", the output emits the heading line before the
paragraph line (the code runs one loop per tag kind: all `h1`..`h6`,
then all paragraphs).  The input's `img` tag with a nonexistent local
file also yields no image reference, against "one image reference per
img tag". -/
theorem c3_counterexample :
    convertHtmlDoc (fun _ => "h") "images" (fun _ => none) "page.html" docPH =
      ("# two\n\none\n", []) := by
  decide

/-- C3 amended: `convert_html` emits the extractable text blocks
grouped by tag, not interleaved in source order: first all headings,
grouped by level `h1` through `h6` with each level's group in source
order, then all paragraphs in source order, then the image references,
one per `img` tag that yields one (remote source, or local source
resolving to an existing file), in the order encountered.  Within each
group, source order is preserved (the paragraph lines form an
order-preserving subsequence of the emitted sequence). -/
theorem c3_amended (md5 : List Nat → String) (imageFolder : String)
    (fs : String → Option (List Nat)) (filePath : String) (doc : List HtmlNode) :
    (convertHtmlDoc md5 imageFolder fs filePath doc).1 =
      String.intercalate "\n"
        (htmlHeadingLines doc ++ htmlParaLines doc ++
          htmlImgLines md5 imageFolder fs filePath doc) ∧
    htmlHeadingLines doc = (List.range' 1 6).flatMap (htmlHeadingLinesAt doc) ∧
    htmlImgLines md5 imageFolder fs filePath doc =
      doc.flatMap (fun n => (htmlImgStep md5 imageFolder fs filePath n).1) ∧
    (htmlParaLines doc).Sublist
      (htmlHeadingLines doc ++ htmlParaLines doc ++
        htmlImgLines md5 imageFolder fs filePath doc) := by
  refine ⟨rfl, rfl, rfl, ?_⟩
  rw [List.append_assoc]
  exact (List.sublist_append_left _ _).trans (List.sublist_append_right _ _)

/-- C10: every falsy cell value — `None`, the empty string, integer
zero, boolean `False` — renders as the empty string in the emitted
table (the code interpolates `cell_value or ''`), so a sheet whose data
cell holds the number 0 produces a blank cell: its table line is
`"|  |"`. -/
theorem c10_falsy_cells_blank :
    (∀ v : XVal, xTruthy v = false → cellStr v = "") ∧
    cellStr (XVal.vInt 0) = "" ∧
    cellStr (XVal.vBool false) = "" ∧
    cellStr (XVal.vStr "") = "" ∧
    cellStr XVal.vNone = "" ∧
    rowLine sheetZero 2 = "|  |" := by
  refine ⟨fun v hv => ?_, by decide, by decide, by decide, by decide, by decide⟩
  simp [cellStr, hv]

/-- Witness for C10 at the concrete falsy value `0`. -/
theorem c10_witness : cellStr (XVal.vInt 0) = "" :=
  c10_falsy_cells_blank.1 (XVal.vInt 0) (by decide)

/-- C5: `_save_image` is deterministic and content-addressed: the
stored path is `os.path.join(image_folder, md5-hex + extension)`, a
pure function of the bytes, so saving equal bytes yields equal paths,
and bytes with different digests yield different paths (given that a
digest, being hexadecimal, never begins with a path separator — the
hypotheses below).  Hence at most one stored file per distinct
payload. -/
theorem c5_content_addressed (md5 : List Nat → String) (imageFolder ext : String)
    (b1 b2 : List Nat)
    (h1 : strStarts (md5 b1 ++ ext) "/" = false)
    (h2 : strStarts (md5 b2 ++ ext) "/" = false) :
    saveImagePath md5 imageFolder b1 ext = saveImagePath md5 imageFolder b1 ext ∧
    (md5 b1 ≠ md5 b2 →
      saveImagePath md5 imageFolder b1 ext ≠ saveImagePath md5 imageFolder b2 ext) := by
  refine ⟨rfl, fun hne heq => hne ?_⟩
  unfold saveImagePath pyJoin at heq
  rw [h1, h2] at heq
  simp only [Bool.false_eq_true, if_false] at heq
  by_cases hc : (imageFolder = "" || strEnds imageFolder "/") = true
  · rw [if_pos hc, if_pos hc] at heq
    exact strApp_right_cancel (strApp_left_cancel heq)
  · rw [if_neg hc, if_neg hc] at heq
    exact strApp_right_cancel (strApp_left_cancel heq)

/-- Witness for C5: two byte strings with distinct digests map to
distinct stored paths. -/
theorem c5_witness :
    saveImagePath (fun b => if b = [1] then "aa" else "bb") "images" [1] ".png" ≠
      saveImagePath (fun b => if b = [1] then "aa" else "bb") "images" [2] ".png" :=
  (c5_content_addressed (fun b => if b = [1] then "aa" else "bb") "images" ".png"
    [1] [2] (by decide) (by decide)).2 (by decide)

/-- C6: `convert` lower-cases the `pathlib` suffix of the path and
dispatches it against the fixed converter table; each of the six
supported extensions routes to its format routine on the parsed
document, and any other extension yields the `ValueError` whose message
is "Unsupported file type: " followed by the offending (lower-cased)
extension — which therefore names that extension — with no conversion
attempted and no content inspection (`convert` never consults the
file's bytes before dispatch). -/
theorem c6_dispatch (md5 : List Nat → String) (imageFolder : String)
    (fs : String → Option (List Nat)) (env : ParseEnv) (filePath : String) :
    (strLower (pySuffix filePath) = ".docx" →
      convert md5 imageFolder fs env filePath =
        .ok (convertDocx md5 imageFolder (env.docx filePath))) ∧
    (strLower (pySuffix filePath) = ".xlsx" →
      convert md5 imageFolder fs env filePath = .ok (convertXlsx (env.xlsx filePath))) ∧
    (strLower (pySuffix filePath) = ".pptx" →
      convert md5 imageFolder fs env filePath =
        .ok (convertPptx md5 imageFolder (env.pptx filePath))) ∧
    (strLower (pySuffix filePath) = ".pdf" →
      convert md5 imageFolder fs env filePath =
        .ok (convertPdf md5 imageFolder (env.pdf filePath))) ∧
    (strLower (pySuffix filePath) = ".html" →
      convert md5 imageFolder fs env filePath =
        .ok (convertHtmlDoc md5 imageFolder fs filePath (env.html filePath))) ∧
    (strLower (pySuffix filePath) = ".htm" →
      convert md5 imageFolder fs env filePath =
        .ok (convertHtmlDoc md5 imageFolder fs filePath (env.html filePath))) ∧
    (strLower (pySuffix filePath) ∉
        ([".docx", ".xlsx", ".pptx", ".pdf", ".html", ".htm"] : List String) →
      convert md5 imageFolder fs env filePath =
        .error ("Unsupported file type: " ++ strLower (pySuffix filePath)) ∧
      strHasSub ("Unsupported file type: " ++ strLower (pySuffix filePath))
        (strLower (pySuffix filePath)) = true) := by
  refine ⟨fun h => ?_, fun h => ?_, fun h => ?_, fun h => ?_, fun h => ?_, fun h => ?_,
    fun h => ⟨?_, strHasSub_append_self _ _⟩⟩
  · simp [convert, h]
  · simp [convert, h]
  · simp [convert, h]
  · simp [convert, h]
  · simp [convert, h]
  · simp [convert, h]
  · simp only [List.mem_cons, List.not_mem_nil, or_false, not_or] at h
    obtain ⟨h1, h2, h3, h4, h5, h6⟩ := h
    simp [convert, h1, h2, h3, h4, h5, h6]

/-- Witness for C6: an unsupported extension (here `.TXT`, lower-cased
to `.txt`) yields the error naming that extension. -/
theorem c6_witness :
    convert (fun _ => "h") "images" (fun _ => none) envTriv "notes.TXT" =
      .error ("Unsupported file type: " ++ strLower (pySuffix "notes.TXT")) :=
  ((c6_dispatch (fun _ => "h") "images" (fun _ => none) envTriv
    "notes.TXT").2.2.2.2.2.2 (by decide)).1

/-- C8: for an `img` tag, a truthy source starting with `http` (which
also covers `https`) is emitted as an image reference with the URL
unchanged and nothing is written locally; a truthy non-`http` source is
resolved against the source file's directory and, when the resolved
path exists with bytes `b`, those bytes are re-saved through the
content-addressed save path (default `.png` extension) and a reference
to the new path is emitted; when the resolved path does not exist,
nothing is emitted and nothing is written (silent skip).  The last
conjunct ties the step to `convert_html`'s output on a document holding
that one tag. -/
theorem c8_html_img_cases (md5 : List Nat → String) (imageFolder : String)
    (fs : String → Option (List Nat)) (filePath src : String) (b : List Nat) :
    (src ≠ "" → strStarts src "http" = true →
      htmlImgStep md5 imageFolder fs filePath (.img (some src)) =
        (["![image](" ++ src ++ ")\n"], [])) ∧
    (src ≠ "" → strStarts src "http" = false → strStarts src "https" = false →
      fs (pyJoin (pyDirname filePath) src) = some b →
      htmlImgStep md5 imageFolder fs filePath (.img (some src)) =
        (["![image](" ++ saveImagePath md5 imageFolder b ".png" ++ ")\n"],
         [(saveImagePath md5 imageFolder b ".png", b)])) ∧
    (src ≠ "" → strStarts src "http" = false → strStarts src "https" = false →
      fs (pyJoin (pyDirname filePath) src) = none →
      htmlImgStep md5 imageFolder fs filePath (.img (some src)) = ([], [])) ∧
    (convertHtmlDoc md5 imageFolder fs filePath [.img (some src)] =
      (String.intercalate "\n" (htmlImgStep md5 imageFolder fs filePath (.img (some src))).1,
       (htmlImgStep md5 imageFolder fs filePath (.img (some src))).2)) := by
  refine ⟨fun hs hh => ?_, fun hs hh hh2 hex => ?_, fun hs hh hh2 hex => ?_, ?_⟩
  · simp [htmlImgStep, hh, String.isEmpty_iff, hs]
  · simp [htmlImgStep, hh, hh2, hex, String.isEmpty_iff, hs, saveImage]
  · simp [htmlImgStep, hh, hh2, hex, String.isEmpty_iff, hs]
  · have hz : htmlHeadingLines [HtmlNode.img (some src)] = [] := rfl
    simp [convertHtmlDoc, hz, htmlParaLines, htmlImgLines, htmlImgWrites, List.flatMap]

/-- Witness for C8 at a local source resolving to an existing sibling
file. -/
theorem c8_witness :
    htmlImgStep (fun _ => "h") "images" fsDir "dir/page.html" (.img (some "local.png")) =
      (["![image](" ++ saveImagePath (fun _ => "h") "images" [4] ".png" ++ ")\n"],
       [(saveImagePath (fun _ => "h") "images" [4] ".png", [4])]) :=
  (c8_html_img_cases (fun _ => "h") "images" fsDir "dir/page.html" "local.png"
    [4]).2.1 (by decide) (by decide) (by decide) (by decide)

theorem strEnds_append (y t : String) : strEnds (y ++ t) t = true := by
  unfold strEnds
  rw [string_data_app, List.reverse_append]
  exact matchesAt_append_self _ _

theorem saveImagePath_ends (md5 : List Nat → String) (imageFolder : String)
    (b : List Nat) (ext : String) :
    strEnds (saveImagePath md5 imageFolder b ext) ext = true := by
  unfold saveImagePath pyJoin
  split_ifs with hA hB
  · exact strEnds_append _ _
  · rw [← String.append_assoc]
    exact strEnds_append _ _
  · rw [← String.append_assoc]
    exact strEnds_append _ _

/-- C9: every image write performed by `convert_docx`, `convert_pptx`
and `convert_pdf` stores the bytes at `_save_image`'s path with the
DEFAULT extension — the stored path is the content-addressed path with
extension `.png` and therefore ends in `.png`, regardless of the actual
encoded format of the bytes, because none of these call sites passes
the image's true extension. -/
theorem c9_default_png (md5 : List Nat → String) (imageFolder : String) :
    (∀ d : DocxDoc, ∀ w ∈ (convertDocx md5 imageFolder d).2,
      w.1 = saveImagePath md5 imageFolder w.2 ".png" ∧ strEnds w.1 ".png" = true) ∧
    (∀ slides : List (List PShape), ∀ w ∈ (convertPptx md5 imageFolder slides).2,
      w.1 = saveImagePath md5 imageFolder w.2 ".png" ∧ strEnds w.1 ".png" = true) ∧
    (∀ pages : List PdfPage, ∀ w ∈ (convertPdf md5 imageFolder pages).2,
      w.1 = saveImagePath md5 imageFolder w.2 ".png" ∧ strEnds w.1 ".png" = true) := by
  refine ⟨fun d w hw => ?_, fun slides w hw => ?_, fun pages w hw => ?_⟩
  · simp only [convertDocx, List.mem_map] at hw
    obtain ⟨rel, _, rfl⟩ := hw
    exact ⟨rfl, saveImagePath_ends _ _ _ _⟩
  · simp only [convertPptx, List.mem_flatMap, List.mem_map] at hw
    obtain ⟨part, ⟨slide, _, shape, _, rfl⟩, hwp⟩ := hw
    by_cases h13 : shape.shapeType = 13
    · simp only [pptxShapeOut, h13, if_pos, List.mem_singleton] at hwp
      subst hwp
      exact ⟨rfl, saveImagePath_ends _ _ _ _⟩
    · simp [pptxShapeOut, h13] at hwp
  · simp only [convertPdf, List.mem_flatMap, List.mem_map] at hw
    obtain ⟨part, ⟨page, _, rfl⟩, hwp⟩ := hw
    simp only [pdfPageOut, List.mem_map] at hwp
    obtain ⟨b, _, rfl⟩ := hwp
    exact ⟨rfl, saveImagePath_ends _ _ _ _⟩

/-- Witness for C9 on a Word document with one image relationship. -/
theorem c9_witness :
    ("images/h.png", ([9] : List Nat)).1 =
      saveImagePath (fun _ => "h") "images" ("images/h.png", ([9] : List Nat)).2 ".png" ∧
    strEnds ("images/h.png", ([9] : List Nat)).1 ".png" = true :=
  (c9_default_png (fun _ => "h") "images").1 docxOneImage
    ("images/h.png", [9]) (by decide)

theorem strJoin_foldl (l : List String) (acc : String) :
    (l.foldl (fun r s => r ++ s) acc).data = acc.data ++ (l.map String.data).flatten := by
  induction l generalizing acc with
  | nil => simp
  | cons x xs ih => simp [List.foldl_cons, ih, string_data_app]

theorem strJoin_data (l : List String) :
    (String.join l).data = (l.map String.data).flatten := by
  have h := strJoin_foldl l ""
  simpa [String.join] using h

theorem cellSeg_data (v : String) :
    (" " ++ v ++ " |").data = ' ' :: (v.data ++ [' ', '|']) := by
  rw [string_data_app, string_data_app]
  rfl

theorem tableLine_shape (vals : List String)
    (h : ∀ v ∈ vals, '|' ∉ v.data ∧ '\n' ∉ v.data) :
    (String.join ("|" :: vals.map (fun v => " " ++ v ++ " |"))).data.count '|' =
      vals.length + 1 ∧
    '\n' ∉ (String.join ("|" :: vals.map (fun v => " " ++ v ++ " |"))).data := by
  rw [strJoin_data]
  simp only [List.map_cons, List.flatten_cons]
  have hseg : ∀ vs : List String, (∀ v ∈ vs, '|' ∉ v.data ∧ '\n' ∉ v.data) →
      ((vs.map (fun v => " " ++ v ++ " |")).map String.data).flatten.count '|' = vs.length ∧
      '\n' ∉ ((vs.map (fun v => " " ++ v ++ " |")).map String.data).flatten := by
    intro vs
    induction vs with
    | nil => intro _; simp
    | cons x xs ih =>
      intro hv
      have hx := hv x (by simp)
      have hrest := ih (fun v hmem => hv v (by simp [hmem]))
      simp only [List.map_cons, List.flatten_cons, List.count_append, cellSeg_data,
        List.length_cons, List.mem_append]
      constructor
      · rw [hrest.1]
        have hx0 : x.data.count '|' = 0 := List.count_eq_zero.mpr hx.1
        simp [List.count_cons, List.count_append, hx0]
        omega
      · intro hmem
        rcases hmem with hmem | hmem
        · rcases List.mem_cons.mp hmem with hc | hmem2
          · exact absurd hc (by decide)
          · rcases List.mem_append.mp hmem2 with hm | hm
            · exact hx.2 hm
            · revert hm; decide
        · exact hrest.2 hmem
  have hmain := hseg vals h
  constructor
  · rw [List.count_append, hmain.1]
    simp
    omega
  · intro hmem
    rcases List.mem_append.mp hmem with hm | hm
    · revert hm; decide
    · exact hmain.2 hm

theorem rowLine_as_join (s : Sheet) (r : Nat) :
    rowLine s r =
      String.join ("|" ::
        ((List.range' 1 s.maxCol).map (fun col => cellStr (s.cell r col))).map
          (fun v => " " ++ v ++ " |")) := by
  unfold rowLine
  rw [List.map_map]
  rfl

theorem headerLine_as_join (s : Sheet) :
    headerLine s =
      String.join ("|" ::
        ((List.range' 1 s.maxCol).map (fun col => cellStr (s.cell 1 col))).map
          (fun v => " " ++ v ++ " |")) := by
  unfold headerLine
  rw [List.map_map]
  rfl

theorem sepLine_as_join (s : Sheet) :
    sepLine s =
      String.join ("|" ::
        ((List.range' 1 s.maxCol).map (fun _ => "---")).map
          (fun v => " " ++ v ++ " |")) := by
  unfold sepLine
  rw [List.map_map]
  rfl

/-- C4: for a worksheet with `max_row = N` (at least 1, as `openpyxl`
guarantees) and `max_column = M`, `convert_xlsx` emits a `##`-level
heading naming the sheet followed by a table block of `N + 1` line
strings — one header line from row 1, one separator line of `---`
cells, and `N - 1` data lines — and, provided the rendered cell values
contain no pipe or newline characters, each line holds exactly `M`
pipe-delimited cells (`M + 1` pipe characters) and no newline; blank
(`None`) cells render as the empty string, never a "None" marker. -/
theorem c4_xlsx_table (s : Sheet) (hrow : 1 ≤ s.maxRow)
    (hclean : ∀ r c, '|' ∉ (cellStr (s.cell r c)).data ∧ '\n' ∉ (cellStr (s.cell r c)).data) :
    (sheetTableLines s).length = s.maxRow + 1 ∧
    sheetBlock s = ("## " ++ s.title ++ "\n") :: sheetTableLines s ++ ["\n"] ∧
    (∀ line ∈ sheetTableLines s,
      line.data.count '|' = s.maxCol + 1 ∧ '\n' ∉ line.data) ∧
    cellStr XVal.vNone = "" := by
  refine ⟨?_, rfl, ?_, rfl⟩
  · simp [sheetTableLines]
    omega
  · intro line hline
    rcases List.mem_cons.mp hline with rfl | hline
    · rw [headerLine_as_join]
      have := tableLine_shape ((List.range' 1 s.maxCol).map (fun col => cellStr (s.cell 1 col)))
        (by intro v hv; rw [List.mem_map] at hv; obtain ⟨col, _, rfl⟩ := hv; exact hclean 1 col)
      simpa using this
    · rcases List.mem_cons.mp hline with rfl | hline
      · rw [sepLine_as_join]
        have := tableLine_shape ((List.range' 1 s.maxCol).map (fun _ => "---"))
          (by intro v hv; rw [List.mem_map] at hv; obtain ⟨col, _, rfl⟩ := hv; constructor <;> decide)
        simpa using this
      · rw [List.mem_map] at hline
        obtain ⟨r, _, rfl⟩ := hline
        rw [rowLine_as_join]
        have := tableLine_shape ((List.range' 1 s.maxCol).map (fun col => cellStr (s.cell r col)))
          (by intro v hv; rw [List.mem_map] at hv; obtain ⟨col, _, rfl⟩ := hv; exact hclean r col)
        simpa using this

/-- Witness for C4 on a concrete 2-by-2 worksheet. -/
theorem c4_witness :
    (sheetTableLines sheetW).length = sheetW.maxRow + 1 :=
  (c4_xlsx_table sheetW (by decide)
    (fun _ _ =>
      ⟨(by decide : '|' ∉ (cellStr (XVal.vStr "a")).data),
       (by decide : '\n' ∉ (cellStr (XVal.vStr "a")).data)⟩)).1

end RuiLlm
